import Mathlib

/-!
Verification of the fptk functional-programming utility library.

The Python source is shallowly embedded: each ADT (`Option`, `Result`,
`Either`) becomes a Lean inductive with the source's variant names, each
method becomes a Lean function translated clause-by-clause from the
source's branching, and the iterative loops of the traverse / gather
helpers become structurally recursive functions threading the same
accumulators the Python loops mutate.
-/

namespace fptk

/-- Option ADT from `src/fptk/adt/option.py`: variants `Some(value)` and the
`NONE` singleton (class `_None`). -/
inductive Option (α : Type) where
  | Some (value : α)
  | NONE
deriving DecidableEq, Repr

/-- `Option.is_some` from the source: `Some` reports `True`, `_None` reports
`False`. -/
def Option.is_some : Option α → Bool
  | .Some _ => true
  | .NONE => false

/-- `Option.bind` from the source:
`f(self.value) if isinstance(self, Some) else NONE`. -/
def Option.bind : Option α → (α → Option β) → Option β
  | .Some v, f => f v
  | .NONE, _ => .NONE

/-- The argument of `Option.or_else` in the source has type
`Option[T] | Callable[[], Option[T]]`: either a plain Option value or a
zero-argument producer of one.  The source distinguishes the two cases with
`callable(alt)`; here they are the two constructors of a sum. -/
inductive OrElseAlt (α : Type) where
  | value (o : Option α)
  | producer (f : PUnit → Option α)

/-- `Option.or_else` from the source:
`if isinstance(self, Some): return self` and otherwise
`return alt() if callable(alt) else alt`. -/
def Option.or_else (self : Option α) (alt : OrElseAlt α) : Option α :=
  match self with
  | .Some v => .Some v
  | .NONE =>
    match alt with
    | .producer f => f PUnit.unit
    | .value o => o

/-- Result ADT from `src/fptk/adt/result.py`: variants `Ok(value)` and
`Err(error)`. -/
inductive Result (α ε : Type) where
  | Ok (value : α)
  | Err (error : ε)
deriving DecidableEq, Repr

/-- `Result.bind` from the source:
`f(self.value) if isinstance(self, Ok) else self`. -/
def Result.bind : Result α ε → (α → Result β ε) → Result β ε
  | .Ok v, f => f v
  | .Err e, _ => .Err e

/-- Either ADT from `src/fptk/adt/either.py`: variants `Left(value)` and
`Right(value)`. -/
inductive Either (L R : Type) where
  | Left (value : L)
  | Right (value : R)
deriving DecidableEq, Repr

/-- `Either.swap` from the source:
`if isinstance(self, Left): return Right(self.value)` else
`return Left(self.value)`. -/
def Either.swap : Either L R → Either R L
  | .Left v => .Right v
  | .Right v => .Left v

/-- Loop body of `sequence_option` from `src/fptk/adt/traverse.py`: the
Python `for` loop appends each `Some` value to the list `out` and returns
`NONE` as soon as it meets a non-`Some` element; after the loop it returns
`Some(out)`. -/
def sequence_optionAux (out : List α) : List (Option α) → Option (List α)
  | [] => .Some out
  | x :: xs =>
    match x with
    | .Some v => sequence_optionAux (out ++ [v]) xs
    | .NONE => .NONE

/-- `sequence_option(xs)` from the source: run the loop starting from the
empty accumulator. -/
def sequence_option (xs : List (Option α)) : Option (List α) :=
  sequence_optionAux [] xs

/-- Loop body of `sequence_result` from `src/fptk/adt/traverse.py`: append
each `Ok` value to `out`, return `Err(x.error)` at the first `Err`, and
return `Ok(out)` after the loop. -/
def sequence_resultAux (out : List α) : List (Result α ε) → Result (List α) ε
  | [] => .Ok out
  | x :: xs =>
    match x with
    | .Ok v => sequence_resultAux (out ++ [v]) xs
    | .Err e => .Err e

/-- `sequence_result(xs)` from the source: run the loop starting from the
empty accumulator. -/
def sequence_result (xs : List (Result α ε)) : Result (List α) ε :=
  sequence_resultAux [] xs

/-- The wrapped values of the `Some` elements of a list, in original order
(statement helper for the traverse laws). -/
def someValues (xs : List (Option α)) : List α :=
  xs.filterMap fun x =>
    match x with
    | .Some v => some v
    | .NONE => none

/-- The success values of the `Ok` elements of a list, in original order
(statement helper). -/
def okValues (rs : List (Result α ε)) : List α :=
  rs.filterMap fun r =>
    match r with
    | .Ok v => some v
    | .Err _ => none

/-- The errors of the `Err` elements of a list, in original order
(statement helper). -/
def errValues (rs : List (Result α ε)) : List ε :=
  rs.filterMap fun r =>
    match r with
    | .Ok _ => none
    | .Err e => some e

/-- The error of the first (lowest-index) `Err` element of a list, if any
(statement helper). -/
def firstErr (rs : List (Result α ε)) : Option ε :=
  match rs with
  | [] => .NONE
  | .Ok _ :: rest => firstErr rest
  | .Err e :: _ => .Some e

/-- Loop body of `gather_results` from `src/fptk/async_tools.py`, acting on
the already-awaited list of task results (in original task order, as
`asyncio.gather` returns them).  The error type of the tasks is a Python
value that may itself be `None`; such values are modelled as `Option ε`
with `NONE` playing Python's `None`.  The loop state is the Python locals:
`values` (the collected `Ok` values) and `first_err : E | None`,
initialised to `None` and assigned only while it `is None`; after the loop
the code returns `Err(first_err)` if `first_err is not None`, else
`Ok(values)`. -/
def gather_resultsAux (values : List α) (first_err : Option ε) :
    List (Result α (Option ε)) → Result (List α) (Option ε)
  | [] =>
    match first_err with
    | .Some e => .Err (.Some e)
    | .NONE => .Ok values
  | r :: rest =>
    match r with
    | .Ok v => gather_resultsAux (values ++ [v]) first_err rest
    | .Err e =>
      match first_err with
      | .NONE => gather_resultsAux values e rest
      | .Some e' => gather_resultsAux values (.Some e') rest

/-- `gather_results(tasks)` from the source, after all tasks have resolved
to the listed results: run the fold starting from `values = []`,
`first_err = None`. -/
def gather_results (results : List (Result α (Option ε))) :
    Result (List α) (Option ε) :=
  gather_resultsAux [] .NONE results

/-- Loop body of `gather_results_accumulate` from `src/fptk/async_tools.py`,
acting on the already-awaited list of task results: collect `Ok` values
into `values` and `Err` errors into `errors`; after the loop return
`Err(errors)` if `errors` is non-empty (Python list truthiness), else
`Ok(values)`. -/
def gather_results_accumulateAux (values : List α) (errors : List ε) :
    List (Result α ε) → Result (List α) (List ε)
  | [] =>
    match errors with
    | [] => .Ok values
    | _ :: _ => .Err errors
  | r :: rest =>
    match r with
    | .Ok v => gather_results_accumulateAux (values ++ [v]) errors rest
    | .Err e => gather_results_accumulateAux values (errors ++ [e]) rest

/-- `gather_results_accumulate(tasks)` from the source, after all tasks have
resolved: run the fold starting from empty `values` and `errors`. -/
def gather_results_accumulate (results : List (Result α ε)) :
    Result (List α) (List ε) :=
  gather_results_accumulateAux [] [] results

/-- Models the outcome of calling a Python function: return a value
normally, raise an exception that is an instance of `Exception` (type `E`),
or raise a `BaseException` that is not an `Exception` — such as
`KeyboardInterrupt` or `SystemExit` (type `B`). -/
inductive PyOutcome (E B T : Type) where
  | ret (value : T)
  | exc (e : E)
  | baseExc (b : B)
deriving DecidableEq, Repr

/-- `try_catch(fn)` from `src/fptk/core/func.py`, applied to one argument:
`try: return Ok(fn(*args)) except Exception as e: return Err(e)`.  Only
`Exception` instances are caught; any other raised `BaseException`
propagates out of the wrapper unchanged. -/
def try_catch (fn : α → PyOutcome E B T) (x : α) : PyOutcome E B (Result T E) :=
  match fn x with
  | .ret v => .ret (.Ok v)
  | .exc e => .ret (.Err e)
  | .baseExc b => .baseExc b


/-- Modelled from the spec: the `UnwrappedErr` failure condition signalled
by `Result.unwrap`/`Result.expect`.  Those two methods are described by the
spec and exercised by `tests/test_result.py`, but are absent from the
`Result` class in `src/fptk/adt/result.py`; the condition carries a
diagnostic message together with the wrapped error value. -/
structure UnwrappedErr (ε : Type) where
  message : String
  error : ε
deriving DecidableEq, Repr

/-- Modelled from the spec: `unwrap()` returns the contained value on `Ok`
and fails with an `UnwrappedErr` condition carrying the wrapped error on
`Err` (the tests expect the failure message to read "Unwrapped Err").
Failing is modelled as `Except.error`. -/
def Result.unwrap : Result α ε → Except (UnwrappedErr ε) α
  | .Ok v => .ok v
  | .Err e => .error ⟨"Unwrapped Err", e⟩

/-- Modelled from the spec: `expect(message)` is like `unwrap` but fails
with the caller-supplied message, still carrying the error for
diagnostics. -/
def Result.expect (r : Result α ε) (message : String) : Except (UnwrappedErr ε) α :=
  match r with
  | .Ok v => .ok v
  | .Err e => .error ⟨message, e⟩

/-- A Python function of fixed positional arity, as `curry` sees it:
`arity` is `fn.__code__.co_argcount` and `impl` is what calling `fn` with a
list of positional arguments returns (only calls with exactly `arity`
arguments arise under the claims). -/
structure PyFun (V : Type) where
  arity : Nat
  impl : List V → V

/-- One invocation of the `curried` closure from `curry` in
`src/fptk/core/func.py`, restricted to positional arguments: the closure
has accumulated `acc` across earlier invocations and now receives `group`;
if `len(args) >= needed` it calls `fn(*args)` (`inl`), otherwise it returns
a new closure accumulating `args` (`inr`). -/
def curriedStep (fn : PyFun V) (acc group : List V) : V ⊕ List V :=
  if fn.arity ≤ (acc ++ group).length then Sum.inl (fn.impl (acc ++ group))
  else Sum.inr (acc ++ group)

/-- Outcome of feeding successive positional-argument groups to the
`curried` closure: the underlying function was invoked and returned a value
(`done`), or a closure is still waiting for more arguments (`pending`), or
a group was applied to the plain value already returned by `fn` — which is
no longer `curry`'s code (`nonCallable`). -/
inductive CurryOutcome (V : Type) where
  | done (value : V)
  | pending (acc : List V)
  | nonCallable
deriving DecidableEq, Repr

/-- Feed the groups one invocation at a time to the `curried` closure,
starting from the accumulated arguments `acc`. -/
def curryApply (fn : PyFun V) (acc : List V) : List (List V) → CurryOutcome V
  | [] => .pending acc
  | g :: gs =>
    match curriedStep fn acc g with
    | .inr acc' => curryApply fn acc' gs
    | .inl v =>
      match gs with
      | [] => .done v
      | _ :: _ => .nonCallable

/-- `curry(fn)` from the source applied to successive invocation groups:
start from an empty accumulator. -/
def curry (fn : PyFun V) (groups : List (List V)) : CurryOutcome V :=
  curryApply fn [] groups

/-- The function `add3(a, b, c) = a + b + c` of the spec's curry example,
as a `PyFun` of arity 3. -/
def add3 : PyFun Nat :=
  ⟨3, fun args =>
    match args with
    | [a, b, c] => a + b + c
    | _ => 0⟩

/-- Closure state of the wrapper returned by `once(fn)` in
`src/fptk/core/func.py`: the nonlocals `called` (initially `False`) and
`result` (initially Python `None`, modelled as `NONE`). -/
structure OnceState (T : Type) where
  called : Bool
  result : Option T
deriving DecidableEq, Repr

/-- The state `once`'s wrapper closes over before its first call. -/
def onceInit : OnceState T :=
  ⟨false, .NONE⟩

/-- One call of `once(fn)`'s wrapper: `if not called: result = fn(*args);
called = True` then `return result`.  `fn` may raise (modelled as
`Except.error`), in which case the exception propagates before `called` is
set, leaving the closure state untouched.  Returns the call's outcome, the
updated closure state, and whether `fn` was invoked during this call. -/
def onceCall (fn : α → Except ρ T) (st : OnceState T) (x : α) :
    Except ρ (Option T) × OnceState T × Bool :=
  if st.called then (.ok st.result, st, false)
  else
    match fn x with
    | .error e => (.error e, st, true)
    | .ok v => (.ok (.Some v), ⟨true, .Some v⟩, true)

/-- Closure state of the wrapper returned by `thunk(f)` in
`src/fptk/core/func.py`: the nonlocals `evaluated` (initially `False`) and
`value` (initially Python `None`, modelled as `NONE`). -/
structure ThunkState (T : Type) where
  evaluated : Bool
  value : Option T
deriving DecidableEq, Repr

/-- The state `thunk`'s wrapper closes over before its first call. -/
def thunkInit : ThunkState T :=
  ⟨false, .NONE⟩

/-- One call of `thunk(f)`'s wrapper: `if not evaluated: value = f();
evaluated = True` then `return value`.  A raise in `f` propagates before
`evaluated` is set, leaving the closure state untouched. -/
def thunkCall (f : PUnit → Except ρ T) (st : ThunkState T) :
    Except ρ (Option T) × ThunkState T × Bool :=
  if st.evaluated then (.ok st.value, st, false)
  else
    match f PUnit.unit with
    | .error e => (.error e, st, true)
    | .ok v => (.ok (.Some v), ⟨true, .Some v⟩, true)

/-- If the input list contains `NONE`, the `sequence_option` loop returns
`NONE` whatever has been accumulated so far. -/
theorem sequence_optionAux_of_mem {α : Type} (xs : List (Option α))
    (h : Option.NONE ∈ xs) (out : List α) :
    sequence_optionAux out xs = .NONE := by
  induction xs generalizing out with
  | nil => cases h
  | cons x xs ih =>
    cases x with
    | NONE => rfl
    | Some v =>
      have hx : Option.NONE ∈ xs := by
        rcases List.mem_cons.mp h with h' | h'
        · exact absurd h' (by simp)
        · exact h'
      simpa [sequence_optionAux] using ih hx (out ++ [v])

/-- If the input list contains no `NONE`, the loop returns `Some` of the
accumulator followed by all wrapped values in order. -/
theorem sequence_optionAux_of_not_mem {α : Type} (xs : List (Option α))
    (h : Option.NONE ∉ xs) (out : List α) :
    sequence_optionAux out xs = .Some (out ++ someValues xs) := by
  induction xs generalizing out with
  | nil => simp [sequence_optionAux, someValues]
  | cons x xs ih =>
    cases x with
    | NONE => exact absurd (List.mem_cons_self _ _) h
    | Some v =>
      have hx : Option.NONE ∉ xs := fun hmem => h (List.mem_cons_of_mem _ hmem)
      simp [sequence_optionAux, someValues, List.filterMap_cons] at ih ⊢
      simpa [someValues] using ih hx (out ++ [v])

/-- If the first `Err` of the input carries `e`, the `sequence_result` loop
returns `Err e` whatever has been accumulated so far. -/
theorem sequence_resultAux_of_firstErr {α ε : Type} (rs : List (Result α ε)) (e : ε)
    (h : firstErr rs = .Some e) (out : List α) :
    sequence_resultAux out rs = .Err e := by
  induction rs generalizing out with
  | nil => cases h
  | cons r rs ih =>
    cases r with
    | Ok v => exact ih (by simpa [firstErr] using h) (out ++ [v])
    | Err e' =>
      have : e' = e := by simpa [firstErr, Option.Some.injEq] using h
      simp [sequence_resultAux, this]

/-- If the input has no `Err`, the loop returns `Ok` of the accumulator
followed by all success values in order. -/
theorem sequence_resultAux_of_noErr {α ε : Type} (rs : List (Result α ε))
    (h : firstErr rs = .NONE) (out : List α) :
    sequence_resultAux out rs = .Ok (out ++ okValues rs) := by
  induction rs generalizing out with
  | nil => simp [sequence_resultAux, okValues]
  | cons r rs ih =>
    cases r with
    | Err e' => exact absurd h (by simp [firstErr])
    | Ok v =>
      have hr : firstErr rs = .NONE := by simpa [firstErr] using h
      simp [sequence_resultAux, okValues, List.filterMap_cons]
      simpa [okValues] using ih hr (out ++ [v])

/-- `firstErr` reports `NONE` exactly when the list has no `Err` element. -/
theorem firstErr_eq_NONE_iff {α ε : Type} (rs : List (Result α ε)) :
    firstErr rs = .NONE ↔ ∀ e : ε, Result.Err e ∉ rs := by
  induction rs with
  | nil => simp [firstErr]
  | cons r rs ih =>
    cases r with
    | Ok v =>
      simp only [firstErr, ih, List.mem_cons]
      constructor
      · intro h e he
        rcases he with he | he
        · cases he
        · exact h e he
      · intro h e he
        exact h e (.inr he)
    | Err e' =>
      simp only [firstErr, List.mem_cons]
      constructor
      · intro h
        cases h
      · intro h
        exact absurd (.inl rfl) (h e')

/-- If no error has been collected by the end, the accumulate loop returns
`Ok` of the accumulated values followed by all remaining success values. -/
theorem gather_results_accumulateAux_ok {α ε : Type} (rs : List (Result α ε)) :
    ∀ (values : List α) (errors : List ε), errors ++ errValues rs = [] →
      gather_results_accumulateAux values errors rs = .Ok (values ++ okValues rs) := by
  induction rs with
  | nil =>
    intro values errors h
    simp at h
    simp [gather_results_accumulateAux, h, okValues]
  | cons r rest ih =>
    intro values errors h
    cases r with
    | Ok v =>
      have h' : errors ++ errValues rest = [] := by
        simpa [errValues, List.filterMap_cons] using h
      have := ih (values ++ [v]) errors h'
      simp [gather_results_accumulateAux, okValues, List.filterMap_cons]
      simpa [okValues] using this
    | Err e =>
      exfalso
      have : e ∈ errors ++ errValues (Result.Err e :: rest) := by
        simp [errValues, List.filterMap_cons]
      rw [h] at this
      cases this

/-- If some error is collected, the accumulate loop returns `Err` of all
collected errors in order. -/
theorem gather_results_accumulateAux_err {α ε : Type} (rs : List (Result α ε)) :
    ∀ (values : List α) (errors : List ε), errors ++ errValues rs ≠ [] →
      gather_results_accumulateAux values errors rs = .Err (errors ++ errValues rs) := by
  induction rs with
  | nil =>
    intro values errors h
    have herr : errValues ([] : List (Result α ε)) = [] := by simp [errValues]
    rw [herr, List.append_nil] at h
    cases errors with
    | nil => exact absurd rfl h
    | cons e es => simp [gather_results_accumulateAux, errValues]
  | cons r rest ih =>
    intro values errors h
    cases r with
    | Ok v =>
      have h' : errors ++ errValues rest ≠ [] := by
        simpa [errValues, List.filterMap_cons] using h
      have := ih (values ++ [v]) errors h'
      simp [gather_results_accumulateAux, errValues, List.filterMap_cons]
      simpa [errValues] using this
    | Err e =>
      have h' : (errors ++ [e]) ++ errValues rest ≠ [] := by simp
      have := ih values (errors ++ [e]) h'
      simp [gather_results_accumulateAux, errValues, List.filterMap_cons]
      simpa [errValues] using this

/-- Feeding non-empty groups whose cumulative length first reaches the
arity at the last group makes the `curried` closure invoke `fn` on all
accumulated arguments in order. -/
theorem curryApply_done {V : Type} (fn : PyFun V) :
    ∀ (groups : List (List V)) (acc : List V), groups ≠ [] →
      (∀ g ∈ groups, g ≠ []) →
      acc.length + groups.flatten.length = fn.arity →
      curryApply fn acc groups = .done (fn.impl (acc ++ groups.flatten)) := by
  intro groups
  induction groups with
  | nil =>
    intro acc h _ _
    exact absurd rfl h
  | cons g gs ih =>
    intro acc _ hne hlen
    cases gs with
    | nil =>
      rw [List.flatten_cons, List.flatten_nil, List.append_nil] at hlen
      have hcond : fn.arity ≤ acc.length + g.length := Nat.le_of_eq hlen.symm
      simp [curryApply, curriedStep, hcond]
    | cons g' gs' =>
      have hg' : 0 < g'.length :=
        List.length_pos.mpr (hne g' (by simp))
      rw [List.flatten_cons, List.flatten_cons, List.length_append, List.length_append] at hlen
      have hnotle : ¬ fn.arity ≤ (acc ++ g).length := by
        rw [List.length_append]
        omega
      have hstep : curriedStep fn acc g = Sum.inr (acc ++ g) := by
        simp only [curriedStep]
        rw [if_neg hnotle]
      have hone : curryApply fn acc (g :: g' :: gs') = curryApply fn (acc ++ g) (g' :: gs') := by
        rw [curryApply, hstep]
      have hrec := ih (acc ++ g) (by simp)
        (fun a ha => hne a (List.mem_cons_of_mem _ ha))
        (by rw [List.flatten_cons, List.length_append, List.length_append]; omega)
      rw [hone, hrec]
      simp [List.flatten_cons, List.append_assoc]

end fptk

/-- C1: `sequence_option(xs)` is `NONE` iff some element of `xs` is `NONE`,
and otherwise is `Some` of the wrapped values in original order;
`sequence_result(rs)` returns `Err` of the first `Err`'s error when any
element is `Err` (`firstErr` reports exactly that situation), and otherwise
`Ok` of the success values in original order; both send `[]` to the trivial
success. -/
theorem C1_sequence_laws {α ε : Type}
    (xs : List (fptk.Option α)) (rs : List (fptk.Result α ε)) :
    (fptk.sequence_option xs = .NONE ↔ fptk.Option.NONE ∈ xs)
    ∧ (fptk.Option.NONE ∉ xs → fptk.sequence_option xs = .Some (fptk.someValues xs))
    ∧ (∀ e : ε, fptk.firstErr rs = .Some e → fptk.sequence_result rs = .Err e)
    ∧ (fptk.firstErr rs = .NONE ↔ ∀ e : ε, fptk.Result.Err e ∉ rs)
    ∧ (fptk.firstErr rs = .NONE → fptk.sequence_result rs = .Ok (fptk.okValues rs))
    ∧ (fptk.sequence_option ([] : List (fptk.Option α)) = .Some [])
    ∧ (fptk.sequence_result ([] : List (fptk.Result α ε)) = .Ok []) := by
  refine ⟨⟨fun h => ?_, fun h => fptk.sequence_optionAux_of_mem xs h []⟩,
    fun h => by simpa using fptk.sequence_optionAux_of_not_mem xs h [],
    fun e he => fptk.sequence_resultAux_of_firstErr rs e he [],
    fptk.firstErr_eq_NONE_iff rs,
    fun h => by simpa using fptk.sequence_resultAux_of_noErr rs h [],
    rfl, rfl⟩
  by_contra hmem
  have := fptk.sequence_optionAux_of_not_mem xs hmem []
  rw [fptk.sequence_option] at h
  simp [this] at h

/-- Witness for C1 at concrete inputs. -/
theorem C1_sequence_laws_witness :
    fptk.sequence_option [fptk.Option.Some 1, fptk.Option.NONE] = .NONE
    ∧ fptk.sequence_option [fptk.Option.Some 1, fptk.Option.Some 2] = .Some [1, 2]
    ∧ fptk.sequence_result [fptk.Result.Ok 1, fptk.Result.Err "e", fptk.Result.Err "f"]
        = .Err "e"
    ∧ fptk.sequence_result ([fptk.Result.Ok 1, fptk.Result.Ok 2] : List (fptk.Result Nat String))
        = .Ok [1, 2]
    ∧ fptk.sequence_option ([] : List (fptk.Option Nat)) = .Some []
    ∧ fptk.sequence_result ([] : List (fptk.Result Nat String)) = .Ok [] := by
  have h1 := C1_sequence_laws [fptk.Option.Some 1, fptk.Option.NONE]
    ([] : List (fptk.Result Nat String))
  have h2 := C1_sequence_laws [fptk.Option.Some 1, fptk.Option.Some 2]
    [fptk.Result.Ok 1, fptk.Result.Err "e", fptk.Result.Err "f"]
  have h3 := C1_sequence_laws ([] : List (fptk.Option Nat))
    ([fptk.Result.Ok 1, fptk.Result.Ok 2] : List (fptk.Result Nat String))
  refine ⟨h1.1.mpr (by decide), ?_, h2.2.2.1 "e" rfl, ?_, h3.2.2.2.2.2.1, h1.2.2.2.2.2.2⟩
  · exact (h2.2.1 (by decide)).trans
      (by decide : fptk.Option.Some (fptk.someValues [fptk.Option.Some 1, fptk.Option.Some 2])
        = .Some [1, 2])
  · exact (h3.2.2.2.2.1 rfl).trans
      (by decide : fptk.Result.Ok
          (fptk.okValues ([fptk.Result.Ok 1, fptk.Result.Ok 2] : List (fptk.Result Nat String)))
        = .Ok [1, 2])

/-- C2: Option's bind (with pure = Some) and Result's bind (with pure = Ok)
satisfy the monad laws: left identity `pure(a).bind(f) == f(a)`, right
identity `m.bind(pure) == m`, and associativity
`m.bind(f).bind(g) == m.bind(x -> f(x).bind(g))`. -/
theorem C2_monad_laws_option_result {α β γ ε : Type}
    (a : α) (f : α → fptk.Option β) (g : β → fptk.Option γ) (m : fptk.Option α)
    (f' : α → fptk.Result β ε) (g' : β → fptk.Result γ ε) (m' : fptk.Result α ε) :
    ((fptk.Option.Some a).bind f = f a)
    ∧ (m.bind fptk.Option.Some = m)
    ∧ ((m.bind f).bind g = m.bind fun x => (f x).bind g)
    ∧ ((fptk.Result.Ok a).bind f' = f' a)
    ∧ (m'.bind fptk.Result.Ok = m')
    ∧ ((m'.bind f').bind g' = m'.bind fun x => (f' x).bind g') := by
  refine ⟨rfl, ?_, ?_, rfl, ?_, ?_⟩
  · cases m <;> rfl
  · cases m <;> rfl
  · cases m' <;> rfl
  · cases m' <;> rfl

/-- C7: `or_else` returns self when self is `Some` — without ever invoking a
producer alternative (the result does not depend on the producer) — and when
self is `NONE` it returns the alternative Option directly, or invokes the
producer and returns its result. -/
theorem C7_or_else_laziness {α : Type}
    (v : α) (o : fptk.Option α) (f g : PUnit → fptk.Option α) :
    ((fptk.Option.Some v).or_else (.value o) = .Some v)
    ∧ ((fptk.Option.Some v).or_else (.producer f) = .Some v)
    ∧ ((fptk.Option.Some v).or_else (.producer f)
        = (fptk.Option.Some v).or_else (.producer g))
    ∧ (fptk.Option.NONE.or_else (.value o) = o)
    ∧ (fptk.Option.NONE.or_else (.producer f) = f PUnit.unit) :=
  ⟨rfl, rfl, rfl, rfl, rfl⟩

/-- C9: `swap` is an involution on Either: `e.swap().swap() == e`, with
`swap` exchanging `Left` and `Right` while preserving the contained value. -/
theorem C9_swap_involution {L R : Type} (e : fptk.Either L R) :
    e.swap.swap = e
    ∧ (∀ v : L, (fptk.Either.Left v : fptk.Either L R).swap = .Right v)
    ∧ (∀ v : R, (fptk.Either.Right v : fptk.Either L R).swap = .Left v) := by
  refine ⟨?_, fun v => rfl, fun v => rfl⟩
  cases e <;> rfl

/-- C3 (code bug): when a task resolves to `Err` whose payload is Python's
`None` (modelled as `Option.NONE`), `gather_results` cannot distinguish the
stored error from its own `first_err is None` sentinel and returns
`Ok([])` instead of the first `Err`, contradicting its own docstring and
the claim. -/
theorem C3_gather_results_none_payload_bug :
    fptk.gather_results
        ([fptk.Result.Err fptk.Option.NONE] : List (fptk.Result Nat (fptk.Option Nat)))
      = .Ok []
    ∧ (fptk.Result.Ok ([] : List Nat) : fptk.Result (List Nat) (fptk.Option Nat))
      ≠ .Err fptk.Option.NONE :=
  ⟨rfl, by decide⟩

/-- C4: `gather_results_accumulate` returns `Ok` of all success values in
original order exactly when no task resolved to `Err`, and otherwise `Err`
of all collected errors in original task order — never a mix. -/
theorem C4_gather_accumulate_all_or_errors {α ε : Type} (rs : List (fptk.Result α ε)) :
    (fptk.gather_results_accumulate rs = .Ok (fptk.okValues rs) ↔ fptk.errValues rs = [])
    ∧ (fptk.errValues rs ≠ [] →
        fptk.gather_results_accumulate rs = .Err (fptk.errValues rs)) := by
  constructor
  · constructor
    · intro h
      by_contra hne
      have herr := fptk.gather_results_accumulateAux_err rs [] [] (by simpa using hne)
      rw [fptk.gather_results_accumulate, herr] at h
      simp at h
    · intro h
      simpa using fptk.gather_results_accumulateAux_ok rs [] [] (by simpa using h)
  · intro h
    simpa using fptk.gather_results_accumulateAux_err rs [] [] (by simpa using h)

/-- Witness for C4 at concrete inputs. -/
theorem C4_gather_accumulate_witness :
    fptk.gather_results_accumulate
        [fptk.Result.Ok 1, fptk.Result.Err "e", fptk.Result.Ok 2, fptk.Result.Err "f"]
      = .Err ["e", "f"]
    ∧ fptk.gather_results_accumulate
        ([fptk.Result.Ok 1, fptk.Result.Ok 2] : List (fptk.Result Nat String))
      = .Ok [1, 2] := by
  have h1 := C4_gather_accumulate_all_or_errors
    [fptk.Result.Ok 1, fptk.Result.Err "e", fptk.Result.Ok 2, fptk.Result.Err "f"]
  have h2 := C4_gather_accumulate_all_or_errors
    ([fptk.Result.Ok 1, fptk.Result.Ok 2] : List (fptk.Result Nat String))
  refine ⟨(h1.2 (by decide)).trans ?_, (h2.1.mpr (by decide)).trans ?_⟩
  · decide
  · decide

/-- C5: `try_catch(fn)(x)` returns `Ok` of the value when `fn` returns
normally, `Err` holding the raised exception when `fn` raises an ordinary
`Exception`, and propagates (never converts) any other `BaseException`
such as `KeyboardInterrupt` or `SystemExit`. -/
theorem C5_try_catch_classifies {α E B T : Type} (fn : α → fptk.PyOutcome E B T) (x : α) :
    (∀ v : T, fn x = .ret v → fptk.try_catch fn x = .ret (.Ok v))
    ∧ (∀ e : E, fn x = .exc e → fptk.try_catch fn x = .ret (.Err e))
    ∧ (∀ b : B, fn x = .baseExc b → fptk.try_catch fn x = .baseExc b) := by
  refine ⟨fun v h => ?_, fun e h => ?_, fun b h => ?_⟩ <;> simp [fptk.try_catch, h]

/-- Witness for C5 at concrete functions. -/
theorem C5_try_catch_witness :
    fptk.try_catch (fun _ : Nat => (fptk.PyOutcome.ret 5 : fptk.PyOutcome String String Nat)) 0
      = .ret (.Ok 5)
    ∧ fptk.try_catch
        (fun _ : Nat => (fptk.PyOutcome.exc "boom" : fptk.PyOutcome String String Nat)) 0
      = .ret (.Err "boom")
    ∧ fptk.try_catch
        (fun _ : Nat =>
          (fptk.PyOutcome.baseExc "KeyboardInterrupt" : fptk.PyOutcome String String Nat)) 0
      = .baseExc "KeyboardInterrupt" :=
  ⟨(C5_try_catch_classifies _ 0).1 5 rfl,
   (C5_try_catch_classifies _ 0).2.1 "boom" rfl,
   (C5_try_catch_classifies _ 0).2.2 "KeyboardInterrupt" rfl⟩

/-- C6: `unwrap()` returns the contained value on `Ok` and fails with an
`UnwrappedErr` condition carrying the wrapped error value on `Err`;
`expect(message)` behaves the same but fails with the caller-supplied
message while still carrying the error. -/
theorem C6_unwrap_expect {α ε : Type} (v : α) (e : ε) (msg : String) :
    ((fptk.Result.Ok v : fptk.Result α ε).unwrap = .ok v)
    ∧ ((fptk.Result.Ok v : fptk.Result α ε).expect msg = .ok v)
    ∧ ((fptk.Result.Err e : fptk.Result α ε).unwrap = .error ⟨"Unwrapped Err", e⟩)
    ∧ ((fptk.Result.Err e : fptk.Result α ε).expect msg = .error ⟨msg, e⟩) :=
  ⟨rfl, rfl, rfl, rfl⟩

/-- C8: for a function of fixed positional arity and any splitting of that
many arguments into successive non-empty groups, feeding the groups to
`curry(fn)` across successive invocations — any mixture of one or several
at a time — invokes `fn` on all the arguments in order. -/
theorem C8_curry_grouping {V : Type} (fn : fptk.PyFun V) (groups : List (List V))
    (h1 : groups ≠ []) (h2 : ∀ g ∈ groups, g ≠ [])
    (h3 : groups.flatten.length = fn.arity) :
    fptk.curry fn groups = .done (fn.impl groups.flatten) := by
  have h := fptk.curryApply_done fn groups [] h1 h2 (by simpa using h3)
  simpa [fptk.curry] using h

/-- Witness for C8: the spec's example
`curry(add3)(1)(2)(3) == curry(add3)(1,2)(3) == curry(add3)(1)(2,3) == 6`. -/
theorem C8_curry_grouping_witness :
    fptk.curry fptk.add3 [[1], [2], [3]] = .done 6
    ∧ fptk.curry fptk.add3 [[1, 2], [3]] = .done 6
    ∧ fptk.curry fptk.add3 [[1], [2, 3]] = .done 6
    ∧ fptk.add3.impl [1, 2, 3] = 6 := by
  have hA := C8_curry_grouping fptk.add3 [[1], [2], [3]] (by decide) (by decide) (by decide)
  have hB := C8_curry_grouping fptk.add3 [[1, 2], [3]] (by decide) (by decide) (by decide)
  have hC := C8_curry_grouping fptk.add3 [[1], [2, 3]] (by decide) (by decide) (by decide)
  exact ⟨hA.trans (by decide), hB.trans (by decide), hC.trans (by decide), by decide⟩

/-- C10: `once(fn)` and `thunk(f)` memoize only a first call that returns
normally: a raising first call propagates the exception, leaves the closure
state untouched (nothing cached), and the next invocation runs the
underlying function again; a normally returning first call is cached and
the next invocation does not run the function. -/
theorem C10_once_thunk_no_cache_on_raise {α ρ T : Type}
    (fn : α → Except ρ T) (f : PUnit → Except ρ T) (x y : α) (e e' : ρ) :
    (fn x = .error e →
      fptk.onceCall fn fptk.onceInit x = (.error e, fptk.onceInit, true)
      ∧ (fptk.onceCall fn (fptk.onceCall fn fptk.onceInit x).2.1 y).2.2 = true)
    ∧ (∀ v : T, fn x = .ok v →
      fptk.onceCall fn (fptk.onceCall fn fptk.onceInit x).2.1 y
        = (.ok (.Some v), ⟨true, .Some v⟩, false))
    ∧ (f PUnit.unit = .error e' →
      fptk.thunkCall f fptk.thunkInit = (.error e', fptk.thunkInit, true)
      ∧ (fptk.thunkCall f (fptk.thunkCall f fptk.thunkInit).2.1).2.2 = true)
    ∧ (∀ v : T, f PUnit.unit = .ok v →
      fptk.thunkCall f (fptk.thunkCall f fptk.thunkInit).2.1
        = (.ok (.Some v), ⟨true, .Some v⟩, false)) := by
  refine ⟨fun h => ⟨?_, ?_⟩, fun v h => ?_, fun h => ⟨?_, ?_⟩, fun v h => ?_⟩
  · simp [fptk.onceCall, fptk.onceInit, h]
  · simp only [fptk.onceCall, fptk.onceInit, h]
    cases hy : fn y <;> simp [hy]
  · simp [fptk.onceCall, fptk.onceInit, h]
  · simp [fptk.thunkCall, fptk.thunkInit, h]
  · simp [fptk.thunkCall, fptk.thunkInit, h]
  · simp [fptk.thunkCall, fptk.thunkInit, h]

/-- Witness for C10 at concrete failing and succeeding functions. -/
theorem C10_once_thunk_witness :
    fptk.onceCall (fun _ : Nat => (.error "boom" : Except String Nat)) fptk.onceInit 0
      = (.error "boom", fptk.onceInit, true)
    ∧ (fptk.onceCall (fun _ : Nat => (.error "boom" : Except String Nat))
        (fptk.onceCall (fun _ : Nat => (.error "boom" : Except String Nat))
          fptk.onceInit 0).2.1 1).2.2 = true
    ∧ fptk.onceCall (fun _ : Nat => (.ok 5 : Except String Nat))
        (fptk.onceCall (fun _ : Nat => (.ok 5 : Except String Nat)) fptk.onceInit 0).2.1 1
      = (.ok (.Some 5), ⟨true, .Some 5⟩, false)
    ∧ fptk.thunkCall (fun _ => (.error "boom" : Except String Nat)) fptk.thunkInit
      = (.error "boom", fptk.thunkInit, true)
    ∧ (fptk.thunkCall (fun _ => (.error "boom" : Except String Nat))
        (fptk.thunkCall (fun _ => (.error "boom" : Except String Nat)) fptk.thunkInit).2.1).2.2
      = true
    ∧ fptk.thunkCall (fun _ => (.ok 5 : Except String Nat))
        (fptk.thunkCall (fun _ => (.ok 5 : Except String Nat)) fptk.thunkInit).2.1
      = (.ok (.Some 5), ⟨true, .Some 5⟩, false) := by
  have h1 := C10_once_thunk_no_cache_on_raise
    (fun _ : Nat => (.error "boom" : Except String Nat))
    (fun _ => (.error "boom" : Except String Nat)) 0 1 "boom" "boom"
  have h2 := C10_once_thunk_no_cache_on_raise
    (fun _ : Nat => (.ok 5 : Except String Nat))
    (fun _ => (.ok 5 : Except String Nat)) 0 1 "boom" "boom"
  exact ⟨(h1.1 rfl).1, (h1.1 rfl).2, h2.2.1 5 rfl, (h1.2.2.1 rfl).1, (h1.2.2.1 rfl).2,
    h2.2.2.2 5 rfl⟩
